import Mathlib

/-!
Shallow embedding of the room state machine of impostergame.io
(`src/App.tsx`).  React `useState` cells are gathered into one record
(`SyncedState`, the shape that is replicated), and every player action
becomes a pure function on that record.  The three calls to
`rand(n) = Math.floor(Math.random() * n)` inside `startGame` are made
explicit parameters (`impIndex`, `wordIndex`, `startingIndex`), each a
uniformly random number below `n`; an action the UI refuses (a disabled
button) is modelled as returning `none`, the state being left untouched.
JavaScript objects with string keys preserve insertion order, so the
`votes` object and the tally object are embedded as association lists in
insertion order.
-/

structure Player where
  id : String
  name : String
  ready : Bool
  isImposter : Option Bool := none
deriving Repr, DecidableEq

structure RoundConfig where
  categoryId : String
  secretWord : String
deriving Repr, DecidableEq

inductive Stage where
  | landing
  | lobby
  | localRoles
  | game
  | reveal
deriving Repr, DecidableEq

/-- Votes map `voterId -> targetPlayerId`, as a JS object in insertion order. -/
abbrev VotesMap := List (String × String)

structure SyncedState where
  stage : Stage
  roomCode : String
  players : List Player
  round : Option RoundConfig
  turnIndex : Nat
  wordHistory : List (String × String)
  votes : VotesMap
deriving Repr, DecidableEq

structure Category where
  id : String
  label : String
  words : List String
deriving Repr, DecidableEq

instance : Inhabited Category := ⟨⟨"", "", []⟩⟩

def defaultCategories : List Category :=
  [ ⟨"animals", "Animals", ["giraffe", "lion", "otter", "falcon", "horse"]⟩,
    ⟨"foods", "Foods", ["pizza", "sushi", "taco", "ramen", "donut"]⟩,
    ⟨"heroes", "Heroes", ["Spiderman", "Iron Man", "Black Widow", "Thor", "Loki"]⟩,
    ⟨"random", "Random", ["rainbow", "volcano", "spaceship", "headphones", "keyboard"]⟩ ]

/-- Source `allReady` (App.tsx:295-297): online requires 3+ players all ready,
local only 3+ players. -/
def allReady (isOnline : Bool) (players : List Player) : Bool :=
  if isOnline then
    decide (3 ≤ players.length) && players.all (fun p => p.ready)
  else
    decide (3 ≤ players.length)

/-- Source `categoryId || "random"` then
`defaultCategories.find(c => c.id === key) || defaultCategories[0]`
(App.tsx:315-317). -/
def selectCategory (categoryId : Option String) : Category :=
  let key :=
    match categoryId with
    | none => "random"
    | some c => if c = "" then "random" else c
  match defaultCategories.find? (fun c => c.id = key) with
  | some c => c
  | none => defaultCategories.headI

/-- JavaScript `String.prototype.trim`: strip leading and trailing
whitespace (structurally recursive so that it evaluates in the kernel). -/
def jsTrim (s : String) : String :=
  ⟨((s.data.dropWhile Char.isWhitespace).reverse.dropWhile Char.isWhitespace).reverse⟩

/-- JavaScript `String.prototype.toUpperCase` (ASCII range suffices for
room codes). -/
def jsToUpper (s : String) : String :=
  ⟨s.data.map Char.toUpper⟩

/-- Source `customWord?.trim() || cat.words[rand(cat.words.length)]` (App.tsx:318). -/
def pickSecret (customWord : Option String) (cat : Category) (wordIndex : Nat) : String :=
  match customWord with
  | some w => if jsTrim w = "" then cat.words.getD wordIndex "" else jsTrim w
  | none => cat.words.getD wordIndex ""

/-- Source `players.map((p, i) => ({ ...p, isImposter: i === impIndex }))` (App.tsx:313). -/
def assignRoles (players : List Player) (impIndex : Nat) : List Player :=
  players.enum.map (fun ip => { ip.2 with isImposter := some (decide (ip.1 = impIndex)) })

/-- Source `startGame` (App.tsx:311-349); the three `rand` draws are parameters. -/
def startGame (s : SyncedState) (isOnline : Bool)
    (categoryId customWord : Option String)
    (impIndex wordIndex startingIndex : Nat) : SyncedState :=
  let cat := selectCategory categoryId
  { s with
      stage := if isOnline then Stage.game else Stage.localRoles
      players := assignRoles s.players impIndex
      round := some ⟨cat.id, pickSecret customWord cat wordIndex⟩
      turnIndex := startingIndex
      wordHistory := []
      votes := [] }

/-- Because `startGame` is reachable only through the lobby button, which is
`disabled={!allReady}` (App.tsx:809): `none` models the rejected press,
the room state being left untouched. -/
def startRound (s : SyncedState) (isOnline : Bool)
    (categoryId customWord : Option String)
    (impIndex wordIndex startingIndex : Nat) : Option SyncedState :=
  if allReady isOnline s.players then
    some (startGame s isOnline categoryId customWord impIndex wordIndex startingIndex)
  else
    none

/-- Source `submitWord` (App.tsx:351-368). -/
def submitWord (s : SyncedState) (word : String) : SyncedState :=
  match s.players[s.turnIndex]? with
  | none => s
  | some p =>
      { s with
          wordHistory := s.wordHistory ++ [(p.name, word)]
          turnIndex := (s.turnIndex + 1) % s.players.length }

def submitMany (s : SyncedState) (words : List String) : SyncedState :=
  words.foldl submitWord s

/-- JS object spread `{ ...votes, [key]: target }`: an existing key keeps
its position and gets the new value, a new key is appended. -/
def setVote (votes : VotesMap) (key target : String) : VotesMap :=
  if votes.any (fun kv => kv.1 = key) then
    votes.map (fun kv => if kv.1 = key then (key, target) else kv)
  else
    votes ++ [(key, target)]

/-- Source `castVote` (App.tsx:370-391): local mode stores a single `group`
entry; online mode needs a caller id and overwrites that caller's entry. -/
def castVote (s : SyncedState) (isOnline : Bool) (myPlayerId targetId : String) : SyncedState :=
  if isOnline = false then
    { s with votes := [("group", targetId)] }
  else if myPlayerId = "" then
    s
  else
    { s with votes := setVote s.votes myPlayerId targetId }

/-- Source `endRound` (App.tsx:393-397). -/
def endRound (s : SyncedState) : SyncedState :=
  { s with stage := Stage.reveal }

/-- Source `nextRound` (App.tsx:399-417). -/
def nextRound (s : SyncedState) : SyncedState :=
  { s with
      stage := Stage.lobby
      players := s.players.map (fun p => { p with ready := false, isImposter := none })
      round := none
      wordHistory := []
      votes := []
      turnIndex := 0 }

/-- Source `goHome` (App.tsx:153-166). -/
def goHome (_s : SyncedState) : SyncedState :=
  { stage := Stage.landing, roomCode := "", players := [], round := none,
    turnIndex := 0, wordHistory := [], votes := [] }

/-- The players-list update of `joinOnlineRoom` (App.tsx:270-292). -/
def joinPlayers (players : List Player) (myId playerName : String) : List Player :=
  if (players.find? (fun p => p.id = myId)).isSome then
    players
  else
    players ++ [{ id := myId, name := playerName, ready := false }]

/-- Source `joinOnlineRoom` (App.tsx:245-292), with the freshly generated uuid as
a parameter; `none` models the early return on a blank code (the
room-not-found path is external). -/
def joinOnlineRoom (s : SyncedState) (code name myId : String) : Option SyncedState :=
  let joinCode := jsToUpper (jsTrim code)
  if joinCode = "" then
    none
  else
    let playerName := if jsTrim name = "" then "Player" else jsTrim name
    some { s with roomCode := joinCode, players := joinPlayers s.players myId playerName }

/-- Source `Object.keys(votes).length` (App.tsx:978): the number of distinct keys. -/
def votesCast (votes : VotesMap) : Nat :=
  (votes.map Prod.fst).dedup.length

/-- Source `requiredVotes` (App.tsx:977-986): `2` for up to 3 players, else
`Math.ceil(players.length * 0.75)`; `0.75` and the product are exact in
binary floating point, so the ceiling is `(3n + 3) / 4` in `Nat`. -/
def requiredVotesFor (n : Nat) : Nat :=
  if n ≤ 3 then 2 else (3 * n + 3) / 4

/-- Source `canReveal` in the online branch of `Game` (App.tsx:973-986). -/
def canReveal (players : List Player) (votes : VotesMap) : Bool :=
  requiredVotesFor players.length ≤ votesCast votes

/-- Source `remainingVotes = Math.max(requiredVotes - totalVotes, 0)`
(App.tsx:985); `Nat` subtraction truncates at `0` the same way. -/
def remainingVotes (players : List Player) (votes : VotesMap) : Nat :=
  requiredVotesFor players.length - votesCast votes

/-- The claim's reveal threshold, written as the claim words it:
`max(2, ceil(0.75 * players.length))` when `players.length > 3`, else `2`. -/
def claimThreshold (n : Nat) : Nat :=
  if 3 < n then max 2 ((3 * n + 3) / 4) else 2

/-- Source `counts[targetId] = (counts[targetId] || 0) + 1` on a JS object
(App.tsx:1144-1147). -/
def bumpCount (counts : List (String × Nat)) (target : String) : List (String × Nat) :=
  if counts.any (fun c => c.1 = target) then
    counts.map (fun c => if c.1 = target then (c.1, c.2 + 1) else c)
  else
    counts ++ [(target, 1)]

/-- The tally of `Reveal` (App.tsx:1143-1147): fold the vote targets, in
the votes object's enumeration order, into a count-per-target object. -/
def voteCounts (votes : VotesMap) : List (String × Nat) :=
  (votes.map Prod.snd).foldl bumpCount []

/-- The `for (const [targetId, count] of Object.entries(counts))` loop of
`Reveal` (App.tsx:1149-1156), updating on `count > topCount` only. -/
def topTargetAux (acc : Option String × Nat) : List (String × Nat) → Option String × Nat
  | [] => acc
  | c :: rest => topTargetAux (if acc.2 < c.2 then (some c.1, c.2) else acc) rest

def topTarget (counts : List (String × Nat)) : Option String × Nat :=
  topTargetAux (none, 0) counts

/-- Source `players.find(p => p.isImposter)` (App.tsx:1165). -/
def findImposter (players : List Player) : Option Player :=
  players.find? (fun p => p.isImposter = some true)

/-- Source `success = imp && votedOut && imp.id === votedOut.id` (App.tsx:1165-1167):
the "Crew wins!" badge shows iff this is true. -/
def revealSuccess (players : List Player) (votes : VotesMap) : Bool :=
  let t := topTarget (voteCounts votes)
  match findImposter players, t.1 with
  | some imp, some tid =>
      match players.find? (fun p => p.id = tid) with
      | some votedOut => decide (imp.id = votedOut.id)
      | none => false
  | some _, none => false
  | none, _ => false

/-- Lookup on the votes object, by key. -/
def lookupVote (votes : VotesMap) (k : String) : Option String :=
  (votes.find? (fun kv => kv.1 = k)).map Prod.snd

/-! ### Example states (used by the witnesses) -/

def exReadyLobby : SyncedState :=
  { stage := Stage.lobby, roomCode := "AB3K",
    players := [⟨"p1", "Ana", true, none⟩, ⟨"p2", "Ben", true, none⟩,
                ⟨"p3", "Cyn", true, none⟩],
    round := none, turnIndex := 0, wordHistory := [], votes := [] }

def exUnreadyLobby : SyncedState :=
  { exReadyLobby with
      players := [⟨"p1", "Ana", true, none⟩, ⟨"p2", "Ben", false, none⟩,
                  ⟨"p3", "Cyn", true, none⟩] }

def exTwoLobby : SyncedState :=
  { exReadyLobby with
      players := [⟨"p1", "Ana", true, none⟩, ⟨"p2", "Ben", true, none⟩] }

/-! ### C1: readiness gating of startRound -/

/-- C1: with fewer than 3 players `startRound` rejects regardless of
readiness; with at least 3 players it rejects in networked mode iff some
player is not ready, and always goes through in single-device mode.  A
rejection is `none`: the room state is left untouched. -/
theorem startRound_gating
    (s : SyncedState) (isOnline : Bool) (categoryId customWord : Option String)
    (impIndex wordIndex startingIndex : Nat) :
    (s.players.length < 3 →
      startRound s isOnline categoryId customWord impIndex wordIndex startingIndex = none) ∧
    (3 ≤ s.players.length → isOnline = true →
      (startRound s isOnline categoryId customWord impIndex wordIndex startingIndex = none ↔
        ∃ p ∈ s.players, p.ready = false)) ∧
    (3 ≤ s.players.length → isOnline = false →
      (startRound s isOnline categoryId customWord impIndex wordIndex startingIndex).isSome
        = true) := by
  refine ⟨?_, ?_, ?_⟩
  · intro h
    have h' : ¬ (3 ≤ s.players.length) := by omega
    cases isOnline <;> simp [startRound, allReady, h']
  · intro h3 ho
    subst ho
    cases hall : s.players.all (fun p => p.ready) with
    | false =>
        simp [startRound, allReady, hall]
        simpa using List.all_eq_false.mp hall
    | true =>
        have hready := List.all_eq_true.mp hall
        simp [startRound, allReady, hall, h3]
        intro p hp
        exact hready p hp
  · intro h3 ho
    subst ho
    simp [startRound, allReady, h3]

theorem startRound_gating_witness :
    startRound exTwoLobby true none none 0 0 0 = none ∧
    startRound exUnreadyLobby true none none 0 0 0 = none ∧
    (startRound exReadyLobby false none none 0 0 0).isSome = true := by
  refine ⟨(startRound_gating exTwoLobby true none none 0 0 0).1 (by decide),
    ((startRound_gating exUnreadyLobby true none none 0 0 0).2.1 (by decide) rfl).mpr
      ⟨⟨"p2", "Ben", false, none⟩, by decide, rfl⟩,
    (startRound_gating exReadyLobby false none none 0 0 0).2.2 (by decide) rfl⟩

/-! ### C4: nextRound resets the round completely -/

/-- C4: after `nextRound` the round is cleared, the clue history and votes
are empty, the turn index is `0`, the stage is the lobby, every player is
unready with no imposter mark, and the player list (ids and names) and the
room code are untouched. -/
theorem nextRound_reset (s : SyncedState) :
    (nextRound s).round = none ∧
    (nextRound s).wordHistory = [] ∧
    (nextRound s).votes = [] ∧
    (nextRound s).turnIndex = 0 ∧
    (nextRound s).stage = Stage.lobby ∧
    (nextRound s).players.all
      (fun p => decide (p.ready = false) && decide (p.isImposter = none)) = true ∧
    (nextRound s).players.map (fun p => (p.id, p.name)) =
      s.players.map (fun p => (p.id, p.name)) ∧
    (nextRound s).roomCode = s.roomCode := by
  refine ⟨rfl, rfl, rfl, rfl, rfl, ?_, ?_, rfl⟩
  · simp [nextRound]
  · simp [nextRound]

/-! ### C2: imposter uniqueness -/

lemma countP_imposter_enumFrom (l : List Player) (k imp : Nat) :
    ((List.enumFrom k l).map
        (fun ip => { ip.2 with isImposter := some (decide (ip.1 = imp)) })).countP
      (fun p => decide (p.isImposter = some true))
    = if k ≤ imp ∧ imp < k + l.length then 1 else 0 := by
  induction l generalizing k with
  | nil =>
      simp only [List.enumFrom, List.map_nil, List.countP_nil, List.length_nil]
      split_ifs <;> omega
  | cons a l ih =>
      rw [List.enumFrom_cons, List.map_cons, List.countP_cons, ih (k + 1)]
      by_cases hk : k = imp
      · simp [hk]
      · simp [hk]
        split_ifs <;> omega

lemma countP_assignRoles (players : List Player) (impIndex : Nat)
    (h : impIndex < players.length) :
    (assignRoles players impIndex).countP (fun p => decide (p.isImposter = some true)) = 1 := by
  unfold assignRoles
  rw [show players.enum = List.enumFrom 0 players from rfl, countP_imposter_enumFrom]
  simp [h]

/-- C2: a successful `startRound` (the imposter draw being a valid index,
as `rand(players.length)` always is) marks exactly one player as the
imposter; `nextRound` and a reset to the landing stage leave zero players
marked. -/
theorem imposter_uniqueness
    (s s' : SyncedState) (isOnline : Bool) (categoryId customWord : Option String)
    (impIndex wordIndex startingIndex : Nat) :
    (impIndex < s.players.length →
      startRound s isOnline categoryId customWord impIndex wordIndex startingIndex = some s' →
      s'.players.countP (fun p => decide (p.isImposter = some true)) = 1) ∧
    (nextRound s).players.countP (fun p => decide (p.isImposter = some true)) = 0 ∧
    (goHome s).players.countP (fun p => decide (p.isImposter = some true)) = 0 := by
  refine ⟨?_, ?_, rfl⟩
  · intro hlt hsome
    unfold startRound at hsome
    split at hsome
    · have heq := Option.some.inj hsome
      subst heq
      simpa [startGame] using countP_assignRoles s.players impIndex hlt
    · cases hsome
  · simp [nextRound, List.countP_map, Function.comp]

theorem imposter_uniqueness_witness :
    (startGame exReadyLobby true none none 0 0 0).players.countP
      (fun p => decide (p.isImposter = some true)) = 1 ∧
    (nextRound exReadyLobby).players.countP
      (fun p => decide (p.isImposter = some true)) = 0 :=
  ⟨(imposter_uniqueness exReadyLobby (startGame exReadyLobby true none none 0 0 0)
      true none none 0 0 0).1 (by decide) rfl,
   (imposter_uniqueness exReadyLobby exReadyLobby true none none 0 0 0).2.1⟩

/-! ### C3: reveal vote threshold (networked mode) -/

lemma requiredVotesFor_eq_claimThreshold (n : Nat) :
    requiredVotesFor n = claimThreshold n := by
  unfold requiredVotesFor claimThreshold
  rcases le_or_lt n 3 with h | h
  · rw [if_pos h, if_neg (by omega)]
  · rw [if_neg (by omega), if_pos h, max_eq_right (by omega)]

/-- C3: in networked mode the reveal button is enabled iff the number of
distinct voters who have cast a vote reaches the claim's threshold
`max(2, ceil(0.75 * players.length))` for more than 3 players, else `2`;
below it, the button instead shows how many more votes are needed. -/
theorem reveal_threshold (players : List Player) (votes : VotesMap) :
    (canReveal players votes = true ↔
      claimThreshold players.length ≤ votesCast votes) ∧
    (canReveal players votes = false →
      0 < remainingVotes players votes ∧
      remainingVotes players votes = claimThreshold players.length - votesCast votes) := by
  constructor
  · unfold canReveal
    rw [requiredVotesFor_eq_claimThreshold]
    exact decide_eq_true_iff
  · intro hfalse
    unfold canReveal at hfalse
    rw [requiredVotesFor_eq_claimThreshold] at hfalse
    have hlt : votesCast votes < claimThreshold players.length := by
      by_contra hcon
      simp [Nat.le_of_not_lt hcon] at hfalse
    unfold remainingVotes
    rw [requiredVotesFor_eq_claimThreshold]
    omega

theorem reveal_threshold_witness :
    0 < remainingVotes (exReadyLobby.players ++ [⟨"p4", "Dan", true, none⟩])
        [("p1", "p2")] :=
  ((reveal_threshold (exReadyLobby.players ++ [⟨"p4", "Dan", true, none⟩])
      [("p1", "p2")]).2 (by decide)).1

/-! ### C5: turn rotation -/

lemma submitWord_step (s : SyncedState) (word : String)
    (hturn : s.turnIndex < s.players.length) :
    ∃ p, s.players[s.turnIndex]? = some p ∧
      submitWord s word =
        { s with
            wordHistory := s.wordHistory ++ [(p.name, word)]
            turnIndex := (s.turnIndex + 1) % s.players.length } := by
  refine ⟨s.players[s.turnIndex], List.getElem?_eq_getElem hturn, ?_⟩
  unfold submitWord
  rw [List.getElem?_eq_getElem hturn]

lemma submitMany_invariant (words : List String) (s : SyncedState)
    (hlen : 0 < s.players.length) (hturn : s.turnIndex < s.players.length) :
    (submitMany s words).players = s.players ∧
    (submitMany s words).turnIndex = (s.turnIndex + words.length) % s.players.length ∧
    (submitMany s words).wordHistory.length = s.wordHistory.length + words.length := by
  induction words generalizing s with
  | nil =>
      refine ⟨rfl, ?_, rfl⟩
      simp [submitMany, Nat.mod_eq_of_lt hturn]
  | cons w ws ih =>
      obtain ⟨p, hp, hstep⟩ := submitWord_step s w hturn
      have hs1 : submitMany s (w :: ws) = submitMany (submitWord s w) ws := rfl
      have hmod : (s.turnIndex + 1) % s.players.length < s.players.length :=
        Nat.mod_lt _ hlen
      have h1 := ih (submitWord s w) (by rw [hstep]; exact hlen) (by rw [hstep]; exact hmod)
      rw [hs1]
      refine ⟨?_, ?_, ?_⟩
      · rw [h1.1, hstep]
      · rw [h1.2.1, hstep]
        simp only [List.length_cons]
        rw [Nat.mod_add_mod]
        ring_nf
      · rw [h1.2.2, hstep]
        simp only [List.length_append, List.length_cons, List.length_nil]
        omega

/-- C5: with the turn index a valid position, `players.length` consecutive
`submitClue` calls bring the turn index back to its starting value; every
single call appends exactly one `(name, word)` pair to the clue history,
the caller's in call order. -/
theorem turn_rotation (s : SyncedState) (words : List String)
    (hlen : 0 < s.players.length) (hturn : s.turnIndex < s.players.length)
    (hwords : words.length = s.players.length) :
    (submitMany s words).turnIndex = s.turnIndex ∧
    (submitMany s words).wordHistory.length =
      s.wordHistory.length + s.players.length ∧
    (∀ w : String,
      (submitWord s w).wordHistory.length = s.wordHistory.length + 1 ∧
      ∃ p, s.players[s.turnIndex]? = some p ∧
        (submitWord s w).wordHistory = s.wordHistory ++ [(p.name, w)]) := by
  obtain ⟨hpl, hti, hwh⟩ := submitMany_invariant words s hlen hturn
  refine ⟨?_, ?_, ?_⟩
  · rw [hti, hwords, Nat.add_mod_right, Nat.mod_eq_of_lt hturn]
  · rw [hwh, hwords]
  · intro w
    obtain ⟨p, hp, hstep⟩ := submitWord_step s w hturn
    refine ⟨?_, p, hp, ?_⟩
    · rw [hstep]
      simp
    · rw [hstep]

def exActive : SyncedState :=
  { exReadyLobby with stage := Stage.game, turnIndex := 1 }

theorem turn_rotation_witness :
    (submitMany exActive ["sun", "sky", "sea"]).turnIndex = exActive.turnIndex ∧
    (submitWord exActive "fox").wordHistory.length = exActive.wordHistory.length + 1 :=
  ⟨(turn_rotation exActive ["sun", "sky", "sea"] (by decide) (by decide) (by decide)).1,
   ((turn_rotation exActive ["sun", "sky", "sea"] (by decide) (by decide) (by decide)).2.2
      "fox").1⟩

/-! ### C6: derived vote result -/

lemma topTargetAux_cases (counts : List (String × Nat)) :
    ∀ (a : Option String) (m : Nat),
    (topTargetAux (a, m) counts = (a, m) ∧ ∀ d ∈ counts, d.2 ≤ m) ∨
    (∃ tid l₁ l₂,
      (topTargetAux (a, m) counts).1 = some tid ∧
      counts = l₁ ++ (tid, (topTargetAux (a, m) counts).2) :: l₂ ∧
      m < (topTargetAux (a, m) counts).2 ∧
      (∀ d ∈ l₁, d.2 < (topTargetAux (a, m) counts).2) ∧
      (∀ d ∈ counts, d.2 ≤ (topTargetAux (a, m) counts).2)) := by
  induction counts with
  | nil =>
      intro a m
      left
      exact ⟨rfl, by simp⟩
  | cons c rest ih =>
      intro a m
      by_cases hc : m < c.2
      · have hr : topTargetAux (a, m) (c :: rest) = topTargetAux (some c.1, c.2) rest := by
          simp [topTargetAux, hc]
        rcases ih (some c.1) c.2 with ⟨heq, hle⟩ | ⟨tid, l₁, l₂, h1, h2, h3, h4, h5⟩
        · right
          refine ⟨c.1, [], rest, ?_, ?_, ?_, by simp, ?_⟩
          · rw [hr, heq]
          · rw [hr, heq]
            simp
          · rw [hr, heq]
            exact hc
          · rw [hr, heq]
            intro d hd
            rcases List.mem_cons.mp hd with h | h
            · rw [h]
            · exact hle d h
        · right
          refine ⟨tid, c :: l₁, l₂, ?_, ?_, ?_, ?_, ?_⟩
          · rw [hr]
            exact h1
          · rw [hr, List.cons_append]
            exact congrArg (c :: ·) h2
          · rw [hr]
            exact lt_trans hc h3
          · rw [hr]
            intro d hd
            rcases List.mem_cons.mp hd with h | h
            · rw [h]
              exact h3
            · exact h4 d h
          · rw [hr]
            intro d hd
            rcases List.mem_cons.mp hd with h | h
            · rw [h]
              exact le_of_lt h3
            · exact h5 d h
      · have hr : topTargetAux (a, m) (c :: rest) = topTargetAux (a, m) rest := by
          simp [topTargetAux, hc]
        rcases ih a m with ⟨heq, hle⟩ | ⟨tid, l₁, l₂, h1, h2, h3, h4, h5⟩
        · left
          refine ⟨by rw [hr, heq], ?_⟩
          intro d hd
          rcases List.mem_cons.mp hd with h | h
          · rw [h]
            omega
          · exact hle d h
        · right
          refine ⟨tid, c :: l₁, l₂, ?_, ?_, ?_, ?_, ?_⟩
          · rw [hr]
            exact h1
          · rw [hr, List.cons_append]
            exact congrArg (c :: ·) h2
          · rw [hr]
            exact h3
          · rw [hr]
            intro d hd
            rcases List.mem_cons.mp hd with h | h
            · rw [h]
              exact Nat.lt_of_le_of_lt (Nat.le_of_not_lt hc) h3
            · exact h4 d h
          · rw [hr]
            intro d hd
            rcases List.mem_cons.mp hd with h | h
            · rw [h]
              exact le_of_lt (Nat.lt_of_le_of_lt (Nat.le_of_not_lt hc) h3)
            · exact h5 d h

lemma bumpCount_pos (counts : List (String × Nat)) (t : String)
    (h : ∀ c ∈ counts, 0 < c.2) : ∀ c ∈ bumpCount counts t, 0 < c.2 := by
  unfold bumpCount
  split
  · intro c hc
    obtain ⟨d, hd, hdc⟩ := List.mem_map.mp hc
    by_cases hdt : d.1 = t
    · rw [if_pos hdt] at hdc
      rw [← hdc]
      exact Nat.lt_of_lt_of_le (h d hd) (Nat.le_succ _)
    · rw [if_neg hdt] at hdc
      rw [← hdc]
      exact h d hd
  · intro c hc
    rcases List.mem_append.mp hc with h1 | h1
    · exact h c h1
    · simp only [List.mem_singleton] at h1
      rw [h1]
      exact Nat.one_pos

lemma bumpCount_ne_nil (counts : List (String × Nat)) (t : String) :
    bumpCount counts t ≠ [] := by
  unfold bumpCount
  split
  · intro hnil
    rename_i hany
    rw [List.map_eq_nil_iff] at hnil
    subst hnil
    simp at hany
  · simp

lemma foldl_bumpCount_pos (ts : List String) :
    ∀ acc : List (String × Nat), (∀ c ∈ acc, 0 < c.2) →
      ∀ c ∈ ts.foldl bumpCount acc, 0 < c.2 := by
  induction ts with
  | nil => exact fun acc h => h
  | cons t ts ih =>
      intro acc h
      exact ih (bumpCount acc t) (bumpCount_pos acc t h)

lemma foldl_bumpCount_ne_nil (ts : List String) :
    ∀ acc : List (String × Nat), acc ≠ [] → ts.foldl bumpCount acc ≠ [] := by
  induction ts with
  | nil => exact fun acc h => h
  | cons t ts ih =>
      intro acc _
      exact ih (bumpCount acc t) (bumpCount_ne_nil acc t)

lemma voteCounts_pos (votes : VotesMap) : ∀ c ∈ voteCounts votes, 0 < c.2 :=
  foldl_bumpCount_pos _ [] (by simp)

lemma voteCounts_ne_nil (votes : VotesMap) (h : votes ≠ []) :
    voteCounts votes ≠ [] := by
  cases votes with
  | nil => exact absurd rfl h
  | cons v vs =>
      unfold voteCounts
      rw [List.map_cons, List.foldl_cons]
      exact foldl_bumpCount_ne_nil _ _ (bumpCount_ne_nil _ _)

lemma revealSuccess_iff (players : List Player) (votes : VotesMap) :
    revealSuccess players votes = true ↔
      ∃ imp, findImposter players = some imp ∧
        (topTarget (voteCounts votes)).1 = some imp.id := by
  rcases himp : findImposter players with _ | imp
  · simp [revealSuccess, himp]
  · rcases ht : (topTarget (voteCounts votes)).1 with _ | tid
    · simp [revealSuccess, himp, ht]
    · rcases hfind : players.find? (fun p => p.id = tid) with _ | votedOut
      · have hmem : imp ∈ players := List.mem_of_find?_eq_some himp
        have hall := List.find?_eq_none.mp hfind
        have hne : tid ≠ imp.id := by
          intro heq
          exact absurd (by simp [heq]) (hall imp hmem)
        simp only [revealSuccess, himp, ht, hfind, Option.some.injEq,
          Bool.false_eq_true, false_iff, not_exists, not_and]
        intro imp' himp' htid
        obtain rfl : imp = imp' := himp'
        exact hne htid
      · have hvo : votedOut.id = tid := by
          have := List.find?_some hfind
          simpa using this
        simp only [revealSuccess, himp, ht, hfind, Option.some.injEq,
          decide_eq_true_eq]
        constructor
        · intro h
          exact ⟨imp, rfl, by rw [← hvo, ← h]⟩
        · rintro ⟨imp', himp', htid⟩
          obtain rfl : imp = imp' := himp'
          rw [hvo]
          exact htid.symm

/-- C6: the derived reveal computation picks, among the per-target
tallies built in the vote mapping's enumeration order, the entry with the
highest count, ties broken in favor of the first-encountered entry (every
entry before the chosen one has a strictly smaller count); it is a pure
function, hence deterministic; and the "Crew wins!" outcome shows iff the
chosen target is the actual imposter's id. -/
theorem vote_result_spec (players : List Player) (votes : VotesMap) :
    topTarget (voteCounts votes) = topTarget (voteCounts votes) ∧
    (∀ d ∈ voteCounts votes, d.2 ≤ (topTarget (voteCounts votes)).2) ∧
    (∀ tid, (topTarget (voteCounts votes)).1 = some tid →
      ∃ l₁ l₂,
        voteCounts votes = l₁ ++ (tid, (topTarget (voteCounts votes)).2) :: l₂ ∧
        ∀ d ∈ l₁, d.2 < (topTarget (voteCounts votes)).2) ∧
    (votes ≠ [] → ((topTarget (voteCounts votes)).1).isSome = true) ∧
    (revealSuccess players votes = true ↔
      ∃ imp, findImposter players = some imp ∧
        (topTarget (voteCounts votes)).1 = some imp.id) := by
  have hcases := topTargetAux_cases (voteCounts votes) none 0
  refine ⟨rfl, ?_, ?_, ?_, revealSuccess_iff players votes⟩
  · rcases hcases with ⟨heq, hle⟩ | ⟨tid, l₁, l₂, h1, h2, h3, h4, h5⟩
    · intro d hd
      have : (topTarget (voteCounts votes)).2 = 0 := by
        unfold topTarget
        rw [heq]
      rw [this]
      exact hle d hd
    · exact h5
  · intro tid htid
    rcases hcases with ⟨heq, hle⟩ | ⟨tid', l₁, l₂, h1, h2, h3, h4, h5⟩
    · exfalso
      have : (topTarget (voteCounts votes)).1 = none := by
        unfold topTarget
        rw [heq]
      rw [this] at htid
      cases htid
    · obtain rfl : tid' = tid := by
        have h1' : (topTarget (voteCounts votes)).1 = some tid' := h1
        rw [htid] at h1'
        exact (Option.some.inj h1').symm
      exact ⟨l₁, l₂, h2, h4⟩
  · intro hne
    rcases hcases with ⟨heq, hle⟩ | ⟨tid, l₁, l₂, h1, h2, h3, h4, h5⟩
    · exfalso
      have hnil := voteCounts_ne_nil votes hne
      obtain ⟨c, hc⟩ := List.exists_mem_of_ne_nil _ hnil
      have := voteCounts_pos votes c hc
      have := hle c hc
      omega
    · unfold topTarget
      rw [show (topTargetAux (none, 0) (voteCounts votes)).1 = some tid from h1]
      rfl

def exVotes : VotesMap := [("p1", "p2"), ("p2", "p2"), ("p3", "p1")]

def exRolePlayers : List Player :=
  [⟨"p1", "Ana", true, some false⟩, ⟨"p2", "Ben", true, some true⟩,
   ⟨"p3", "Cyn", true, some false⟩]

theorem vote_result_spec_witness :
    ((topTarget (voteCounts exVotes)).1).isSome = true ∧
    revealSuccess exRolePlayers exVotes = true :=
  ⟨(vote_result_spec exRolePlayers exVotes).2.2.2.1 (by decide),
   (vote_result_spec exRolePlayers exVotes).2.2.2.2.mpr
     ⟨⟨"p2", "Ben", true, some true⟩, by decide, by decide⟩⟩

/-! ### C7: castVote semantics -/

def exVoteState : SyncedState :=
  { exReadyLobby with stage := Stage.game, votes := [] }

/-- C7 fails as stated: online `castVote` with an empty caller id is a
no-op (App.tsx:378 `if (!myPlayerId) return;`), it does not record an
entry keyed by the empty id. -/
theorem castVote_empty_id_cex :
    (castVote exVoteState true "" "p2").votes = [] ∧
    ([] : VotesMap) ≠ [("", "p2")] :=
  ⟨rfl, by decide⟩

lemma find?_setVote_overwrite (votes : VotesMap) (key target : String)
    (h : votes.any (fun kv => kv.1 = key) = true) :
    (votes.map (fun kv => if kv.1 = key then (key, target) else kv)).find?
        (fun kv => kv.1 = key) = some (key, target) := by
  induction votes with
  | nil => simp at h
  | cons kv rest ih =>
      by_cases hk : kv.1 = key
      · rw [List.map_cons, if_pos hk, List.find?_cons_of_pos _ (by simp)]
      · rw [List.map_cons, if_neg hk, List.find?_cons_of_neg _ (by simpa using hk)]
        apply ih
        simpa [hk] using h

lemma find?_setVote_map_other (votes : VotesMap) (key target k : String)
    (hk : ¬ k = key) :
    (votes.map (fun kv => if kv.1 = key then (key, target) else kv)).find?
        (fun kv => kv.1 = k) =
      votes.find? (fun kv => kv.1 = k) := by
  induction votes with
  | nil => simp
  | cons kv rest ih =>
      rw [List.map_cons]
      by_cases hh : kv.1 = key
      · rw [if_pos hh,
          List.find?_cons_of_neg _
            (by simp only [decide_eq_true_eq]; exact fun h => hk h.symm),
          List.find?_cons_of_neg _
            (by simp only [decide_eq_true_eq]; exact fun h => hk (h.symm.trans hh))]
        exact ih
      · rw [if_neg hh]
        by_cases hkk : kv.1 = k
        · rw [List.find?_cons_of_pos _ (by simpa using hkk),
            List.find?_cons_of_pos _ (by simpa using hkk)]
        · rw [List.find?_cons_of_neg _ (by simpa using hkk),
            List.find?_cons_of_neg _ (by simpa using hkk)]
          exact ih

lemma lookupVote_setVote_self (votes : VotesMap) (key target : String) :
    lookupVote (setVote votes key target) key = some target := by
  unfold setVote lookupVote
  split
  · rename_i hany
    rw [find?_setVote_overwrite votes key target hany]
    rfl
  · rename_i hany
    rw [List.find?_append]
    have h0 : votes.find? (fun kv => kv.1 = key) = none := by
      rw [List.find?_eq_none]
      intro kv hkv hpred
      rw [Bool.not_eq_true, ← Bool.not_eq_true] at hany
      exact hany (List.any_eq_true.mpr ⟨kv, hkv, hpred⟩)
    rw [h0, Option.none_or, List.find?_cons_of_pos _ (by simp)]
    rfl

lemma lookupVote_setVote_other (votes : VotesMap) (key target k : String)
    (hk : k ≠ key) :
    lookupVote (setVote votes key target) k = lookupVote votes k := by
  unfold setVote lookupVote
  split
  · rw [find?_setVote_map_other votes key target k hk]
  · rw [List.find?_append,
      List.find?_cons_of_neg _ (by simp only [decide_eq_true_eq]; exact fun h => hk h.symm)]
    simp

lemma countP_key_of_nodup (votes : VotesMap) (key : String)
    (hnodup : (votes.map Prod.fst).Nodup)
    (hany : votes.any (fun kv => kv.1 = key) = true) :
    votes.countP (fun kv => decide (kv.1 = key)) = 1 := by
  induction votes with
  | nil => simp at hany
  | cons kv rest ih =>
      rw [List.map_cons, List.nodup_cons] at hnodup
      by_cases hk : kv.1 = key
      · rw [List.countP_cons_of_pos _ _ (by simpa using hk)]
        have hzero : rest.countP (fun kv => decide (kv.1 = key)) = 0 := by
          rw [List.countP_eq_zero]
          intro d hd hpred
          rw [decide_eq_true_eq] at hpred
          apply hnodup.1
          rw [hk, ← hpred]
          exact List.mem_map_of_mem _ hd
        rw [hzero]
      · rw [List.countP_cons_of_neg _ _ (by simpa using hk)]
        apply ih hnodup.2
        simpa [hk] using hany

lemma countP_setVote (votes : VotesMap) (key target : String)
    (hnodup : (votes.map Prod.fst).Nodup) :
    (setVote votes key target).countP (fun kv => decide (kv.1 = key)) = 1 := by
  unfold setVote
  split
  · rename_i hany
    rw [List.countP_map]
    have hcongr :
        List.countP
            ((fun kv : String × String => decide (kv.1 = key)) ∘
              (fun kv => if kv.1 = key then (key, target) else kv)) votes =
          List.countP (fun kv : String × String => decide (kv.1 = key)) votes := by
      apply List.countP_congr
      intro kv _
      by_cases h : kv.1 = key <;> simp [Function.comp, h]
    rw [hcongr]
    exact countP_key_of_nodup votes key hnodup hany
  · rename_i hany
    rw [Bool.not_eq_true] at hany
    rw [List.countP_append]
    have h0 : votes.countP (fun kv => decide (kv.1 = key)) = 0 := by
      rw [List.countP_eq_zero]
      intro kv hkv hpred
      rw [← Bool.not_eq_true] at hany
      exact hany (List.any_eq_true.mpr ⟨kv, hkv, hpred⟩)
    rw [h0]
    simp

/-- C7 (amended): in networked mode, for every non-empty caller id,
`castVote` records or overwrites exactly the caller's entry (other keys
unchanged, exactly one entry under the caller's key); with an empty
caller id it is a no-op; in single-device mode it replaces the mapping
with the single overwritable `group` entry. -/
theorem castVote_semantics (s : SyncedState) (myPlayerId targetId : String) :
    (myPlayerId ≠ "" →
      (castVote s true myPlayerId targetId).votes = setVote s.votes myPlayerId targetId ∧
      lookupVote (castVote s true myPlayerId targetId).votes myPlayerId = some targetId ∧
      (∀ k, k ≠ myPlayerId →
        lookupVote (castVote s true myPlayerId targetId).votes k = lookupVote s.votes k) ∧
      ((s.votes.map Prod.fst).Nodup →
        (castVote s true myPlayerId targetId).votes.countP
          (fun kv => decide (kv.1 = myPlayerId)) = 1)) ∧
    castVote s true "" targetId = s ∧
    (castVote s false myPlayerId targetId).votes = [("group", targetId)] := by
  refine ⟨?_, ?_, rfl⟩
  · intro hid
    have hv : (castVote s true myPlayerId targetId).votes =
        setVote s.votes myPlayerId targetId := by
      simp [castVote, hid]
    refine ⟨hv, ?_, ?_, ?_⟩
    · rw [hv]
      exact lookupVote_setVote_self s.votes myPlayerId targetId
    · intro k hk
      rw [hv]
      exact lookupVote_setVote_other s.votes myPlayerId targetId k hk
    · intro hnodup
      rw [hv]
      exact countP_setVote s.votes myPlayerId targetId hnodup
  · simp [castVote]

theorem castVote_semantics_witness :
    lookupVote (castVote { exVoteState with votes := [("p3", "p1")] } true
        "p1" "p2").votes "p1" = some "p2" ∧
    lookupVote (castVote { exVoteState with votes := [("p3", "p1")] } true
        "p1" "p2").votes "p3" = some "p1" ∧
    (castVote { exVoteState with votes := [("p3", "p1")] } true "p1" "p2").votes.countP
      (fun kv => decide (kv.1 = "p1")) = 1 ∧
    castVote exVoteState true "" "p2" = exVoteState ∧
    (castVote exVoteState false "p1" "p2").votes = [("group", "p2")] := by
  have h := castVote_semantics { exVoteState with votes := [("p3", "p1")] } "p1" "p2"
  have h2 := castVote_semantics exVoteState "p1" "p2"
  have h3 := castVote_semantics exVoteState "" "p2"
  exact ⟨(h.1 (by decide)).2.1,
    ((h.1 (by decide)).2.2.1 "p3" (by decide)).trans (by decide),
    (h.1 (by decide)).2.2.2 (by decide),
    h3.2.1,
    h2.2.2⟩

/-! ### C8: secret word selection -/

lemma getD_mem_of_lt (l : List String) (i : Nat) (h : i < l.length) :
    l.getD i "" ∈ l := by
  rw [List.getD_eq_getElem?_getD, List.getElem?_eq_getElem h]
  exact List.getElem_mem h

/-- C8: a supplied custom word that is non-blank after trimming becomes
the secret word (trimmed); otherwise (no custom word, or one that trims
to blank) the secret word is the entry of the selected category's word
list at the injected uniform random index, hence a member of that list. -/
theorem secret_word_selection (s : SyncedState) (isOnline : Bool)
    (categoryId customWord : Option String)
    (impIndex wordIndex startingIndex : Nat) :
    (∀ w, customWord = some w → jsTrim w ≠ "" →
      (startGame s isOnline categoryId customWord impIndex wordIndex startingIndex).round =
        some ⟨(selectCategory categoryId).id, jsTrim w⟩) ∧
    ((customWord = none ∨ ∃ w, customWord = some w ∧ jsTrim w = "") →
      wordIndex < (selectCategory categoryId).words.length →
      (startGame s isOnline categoryId customWord impIndex wordIndex startingIndex).round =
        some ⟨(selectCategory categoryId).id,
          (selectCategory categoryId).words.getD wordIndex ""⟩ ∧
      (selectCategory categoryId).words.getD wordIndex "" ∈
        (selectCategory categoryId).words) := by
  constructor
  · intro w hw htrim
    subst hw
    simp [startGame, pickSecret, htrim]
  · intro hblank hlt
    refine ⟨?_, getD_mem_of_lt _ _ hlt⟩
    rcases hblank with h | ⟨w, hw, htrim⟩
    · subst h
      simp [startGame, pickSecret]
    · subst hw
      simp [startGame, pickSecret, htrim]

theorem secret_word_selection_witness :
    (startGame exReadyLobby true (some "foods") (some "  taco bell ") 0 1 0).round =
      some ⟨"foods", "taco bell"⟩ ∧
    (startGame exReadyLobby true (some "foods") none 0 1 0).round =
      some ⟨"foods", "sushi"⟩ ∧
    "sushi" ∈ (selectCategory (some "foods")).words := by
  have h1 := (secret_word_selection exReadyLobby true (some "foods")
    (some "  taco bell ") 0 1 0).1 "  taco bell " rfl (by decide)
  have h2 := (secret_word_selection exReadyLobby true (some "foods")
    none 0 1 0).2 (Or.inl rfl) (by decide)
  refine ⟨?_, ?_, ?_⟩
  · rw [h1]
    decide
  · rw [h2.1]
    decide
  · have := h2.2
    simpa using this

/-! ### C10: unknown category falls back to the first category -/

/-- C10: a non-empty category id that matches no category makes
`find` return `undefined`, so `|| defaultCategories[0]` selects the first
category, `animals`: the round's category id is `"animals"` and, absent a
custom word, the secret word comes from the animals word list; `none` or
the empty id select the `"random"` category instead. -/
theorem category_fallback (catId : String) (s : SyncedState) (isOnline : Bool)
    (impIndex wordIndex startingIndex : Nat) :
    (catId ≠ "" → defaultCategories.all (fun c => decide (c.id ≠ catId)) = true →
      selectCategory (some catId) = defaultCategories.headI ∧
      (defaultCategories.headI).id = "animals" ∧
      ((startGame s isOnline (some catId) none impIndex wordIndex startingIndex).round.map
        RoundConfig.categoryId) = some "animals" ∧
      (wordIndex < 5 →
        ∃ r, (startGame s isOnline (some catId) none impIndex wordIndex startingIndex).round
            = some r ∧
          r.secretWord ∈ ["giraffe", "lion", "otter", "falcon", "horse"])) ∧
    selectCategory none =
      ⟨"random", "Random", ["rainbow", "volcano", "spaceship", "headphones", "keyboard"]⟩ ∧
    selectCategory (some "") = selectCategory none := by
  refine ⟨?_, by decide, rfl⟩
  intro hne hall
  have hfind : defaultCategories.find? (fun c => c.id = catId) = none := by
    rw [List.find?_eq_none]
    intro c hc hpred
    have hc' := List.all_eq_true.mp hall c hc
    simp only [decide_eq_true_eq] at hc' hpred
    exact hc' hpred
  have hsel : selectCategory (some catId) = defaultCategories.headI := by
    simp only [selectCategory, if_neg hne]
    rw [hfind]
  refine ⟨hsel, rfl, ?_, ?_⟩
  · simp only [startGame]
    rw [hsel]
    rfl
  · intro hw
    refine ⟨_, rfl, ?_⟩
    simp only [pickSecret]
    rw [hsel]
    exact getD_mem_of_lt _ _ (by simpa using hw)

theorem category_fallback_witness :
    selectCategory (some "animalz") = defaultCategories.headI ∧
    ((startGame exReadyLobby true (some "animalz") none 0 2 0).round.map
      RoundConfig.categoryId) = some "animals" ∧
    ((startGame exReadyLobby true (some "animalz") none 0 2 0).round).isSome = true := by
  have h := (category_fallback "animalz" exReadyLobby true 0 2 0).1 (by decide) (by decide)
  refine ⟨h.1, h.2.2.1, ?_⟩
  obtain ⟨r, hr, _⟩ := h.2.2.2 (by decide)
  rw [hr]
  rfl

/-! ### C9: idempotent join -/

lemma joinPlayers_mem (players : List Player) (myId playerName : String) :
    ((joinPlayers players myId playerName).find? (fun p => p.id = myId)).isSome = true := by
  unfold joinPlayers
  split
  · rename_i h
    exact h
  · rename_i h
    rw [List.find?_append]
    have h0 : players.find? (fun p => p.id = myId) = none := by
      rcases hfind : players.find? (fun p => p.id = myId) with _ | p
      · exact hfind
      · rw [hfind] at h
        simp at h
    rw [h0, Option.none_or, List.find?_cons_of_pos _ (by simp)]
    rfl

lemma joinPlayers_of_present (players : List Player) (myId playerName : String)
    (h : (players.find? (fun p => p.id = myId)).isSome = true) :
    joinPlayers players myId playerName = players := by
  unfold joinPlayers
  rw [if_pos h]

/-- C9: joining is idempotent in the player id: a join whose id is
already present leaves the player list unchanged, and applying the join
update twice with the same id equals applying it once. -/
theorem join_idempotent (s s' : SyncedState) (code name myId : String) :
    ((s.players.find? (fun p => p.id = myId)).isSome = true →
      ∀ t, joinOnlineRoom s code name myId = some t → t.players = s.players) ∧
    (joinOnlineRoom s code name myId = some s' →
      joinOnlineRoom s' code name myId = some s') := by
  constructor
  · intro hpresent t ht
    simp only [joinOnlineRoom] at ht
    split at ht
    · cases ht
    · have heq := Option.some.inj ht
      rw [← heq]
      exact joinPlayers_of_present s.players myId _ hpresent
  · intro h
    simp only [joinOnlineRoom] at h ⊢
    split at h
    · cases h
    · rename_i hcode
      have heq := Option.some.inj h
      rw [if_neg hcode, ← heq]
      rw [joinPlayers_of_present _ _ _ (joinPlayers_mem s.players myId _)]

def exJoined : SyncedState :=
  { exReadyLobby with
      roomCode := "AB"
      players := exReadyLobby.players ++ [⟨"z1", "Zoe", false, none⟩] }

theorem join_idempotent_witness :
    joinOnlineRoom exJoined "ab" "Zoe" "z1" = some exJoined ∧
    exJoined.players = exJoined.players := by
  have h0 : joinOnlineRoom exReadyLobby "ab" "Zoe" "z1" = some exJoined := by decide
  have h1 := (join_idempotent exReadyLobby exJoined "ab" "Zoe" "z1").2 h0
  exact ⟨h1, (join_idempotent exJoined exJoined "ab" "Zoe" "z1").1 (by decide) exJoined h1⟩
